import Mathlib

/-!
Verification of the gping core against its specification.

This file shallowly embeds the parts of the gping sources that the
specification's testable claims are about:

* `src/icmp.rs` — ICMP echo request encoding, echo reply decoding and the
  one's-complement checksum (`write_checksum`).
* `src/ipv4.rs` — IPv4 header validation and stripping (`IpV4Packet::decode`).
* `src/linux.rs` — the raw-ICMP worker's in-flight table (insert plus
  oldest-entry eviction) and the capability raise/drop control flow.
* `pinger/src/linux.rs` and `pinger/src/lib.rs` — the Linux line parser and
  the shared `extract_regex` time extraction, including its `time=` regex.
* `pinger/src/tcp.rs` — outcome classification of one TCP connect attempt.
* `pinger/src/fake.rs` — the synthetic result generator.

Byte buffers are modelled as `List Nat` whose elements are meant to be below
256; machine-integer truncations (`as u8`, `wrapping_add`) are explicit with
`% 256` / `% 2 ^ 32` at the places the Rust code truncates.
-/

/-- Strings are processed as character lists. -/
abbrev Str := List Char

/-- Durations are modelled as a number of nanoseconds. -/
abbrev DurationNs := Nat

/-- `PingResult` covering the variants used by the pinger sources, including
the `Failed` variant produced by `LinuxParser::parse` in
`pinger/src/linux.rs`. -/
inductive PingResult
  | Pong (ns : DurationNs) (context : Str)
  | Timeout (context : Str)
  | Unknown (context : Str)
  | PingExited (status : Str) (stderr : Str)
  | Failed (status : Str) (message : Str)
  deriving DecidableEq, Repr

/-! ## ICMP echo codec (`src/icmp.rs`) -/

/-- `ICMP_HEADER_SIZE` from `src/icmp.rs`. -/
def ICMP_HEADER_SIZE : Nat := 8

/-- The `Proto` trait of `src/icmp.rs`: a type/code table. -/
structure Proto where
  ECHO_REQUEST_TYPE : Nat
  ECHO_REQUEST_CODE : Nat
  ECHO_REPLY_TYPE : Nat
  ECHO_REPLY_CODE : Nat
  deriving DecidableEq, Repr

/-- The `impl Proto for IcmpV4` constants. -/
def IcmpV4 : Proto := ⟨8, 0, 0, 0⟩

/-- The `impl Proto for IcmpV6` constants. -/
def IcmpV6 : Proto := ⟨128, 0, 129, 0⟩

/-- One step of the checksum word sum in `write_checksum`: chunks of two
bytes become big-endian 16-bit words (an odd trailing byte is the high
byte), accumulated with `u32::wrapping_add`. -/
def wordSum : List Nat → Nat → Nat
  | [], s => s
  | [a], s => (s + a * 256) % 2 ^ 32
  | a :: b :: rest, s => wordSum rest ((s + (a * 256 + b)) % 2 ^ 32)

/-- The carry-folding loop of `write_checksum`:
`while (sum >> 16) > 0 { sum = (sum & 0xffff) + (sum >> 16); }`. -/
def foldCarry (s : Nat) : Nat :=
  if 0 < s / 65536 then foldCarry (s % 65536 + s / 65536) else s
termination_by s
decreasing_by omega

/-- The checksum value stored by `write_checksum`: fold the carries of the
word sum, then `!sum as u16` (low 16 bits of the bitwise complement). -/
def icmpChecksum (buffer : List Nat) : Nat :=
  65535 - foldCarry (wordSum buffer 0) % 65536

/-- `write_checksum` of `src/icmp.rs`: store the checksum of the whole
buffer at offsets 2 (high byte) and 3 (low byte). -/
def write_checksum (buffer : List Nat) : List Nat :=
  let sum := icmpChecksum buffer
  (buffer.set 2 (sum / 256)).set 3 (sum % 256)

/-- Overwrite the region of `b` starting at index `i` with `p`
(the effect of `(&mut buffer[i..]).write_all(p)` when it succeeds). -/
def writeRegion (b : List Nat) (i : Nat) (p : List Nat) : List Nat :=
  b.take i ++ p ++ b.drop (i + p.length)

/-- `EchoRequest::encode` of `src/icmp.rs`. The Rust function panics when
the destination buffer is smaller than header plus payload (index out of
bounds below 8 bytes, `write_all(..).unwrap()` otherwise); that failure is
modelled as `none`. On success it writes type, code, the big-endian
identifier at 4-5 and sequence at 6-7 (`as u8` truncations made explicit),
copies the payload at offset 8, and finally runs `write_checksum`. Bytes
2-3 keep the destination buffer's prior contents until the checksum is
stored. -/
def EchoRequest.encode (P : Proto) (ident seq_cnt : Nat) (payload : List Nat)
    (buffer : List Nat) : Option (List Nat) :=
  if buffer.length < ICMP_HEADER_SIZE + payload.length then none
  else
    let b := ((((((buffer.set 0 P.ECHO_REQUEST_TYPE).set 1 P.ECHO_REQUEST_CODE).set
      4 (ident / 256 % 256)).set 5 (ident % 256)).set
      6 (seq_cnt / 256 % 256)).set 7 (seq_cnt % 256))
    some (write_checksum (writeRegion b 8 payload))

/-- The decode errors of `EchoReply::decode` ("Invalid size" /
"Invalid Packet"). -/
inductive IcmpError
  | invalidSize
  | invalidPacket
  deriving DecidableEq, Repr

/-- `EchoReply::decode` of `src/icmp.rs`. Note the rejection condition is a
conjunction, exactly as in the source:
`if type_ != P::ECHO_REPLY_TYPE && code != P::ECHO_REPLY_CODE`. -/
def EchoReply.decode (P : Proto) (buffer : List Nat) :
    Except IcmpError (Nat × Nat × List Nat) :=
  if buffer.length < ICMP_HEADER_SIZE then .error .invalidSize
  else
    let type_ := buffer.getD 0 0
    let code := buffer.getD 1 0
    if type_ ≠ P.ECHO_REPLY_TYPE ∧ code ≠ P.ECHO_REPLY_CODE then
      .error .invalidPacket
    else
      .ok (buffer.getD 4 0 * 256 + buffer.getD 5 0,
        buffer.getD 6 0 * 256 + buffer.getD 7 0,
        buffer.drop ICMP_HEADER_SIZE)

/-- Flip a buffer's type and code bytes to the reply constants of the given
protocol (the operation claim C2 performs between encode and decode). -/
def setReply (P : Proto) (b : List Nat) : List Nat :=
  (b.set 0 P.ECHO_REPLY_TYPE).set 1 P.ECHO_REPLY_CODE

/-! ## IPv4 header strip (`src/ipv4.rs`) -/

/-- The decode errors of `IpV4Packet::decode`. -/
inductive Ipv4Error
  | tooSmall
  | invalidVersion
  | invalidHeaderSize
  | unknownProtocol
  deriving DecidableEq, Repr

/-- `IpV4Protocol` of `src/ipv4.rs`. -/
inductive IpV4Protocol
  | Icmp
  deriving DecidableEq, Repr

/-- `IpV4Protocol::decode`. -/
def IpV4Protocol.decode (data : Nat) : Option IpV4Protocol :=
  if data = 1 then some .Icmp else none

/-- `MINIMUM_PACKET_SIZE` from `src/ipv4.rs`. -/
def MINIMUM_PACKET_SIZE : Nat := 20

/-- `IpV4Packet::decode` of `src/ipv4.rs`. -/
def IpV4Packet.decode (data : List Nat) :
    Except Ipv4Error (IpV4Protocol × List Nat) :=
  if data.length < MINIMUM_PACKET_SIZE then .error .tooSmall
  else
    let byte0 := data.getD 0 0
    let version := (byte0 &&& 0xf0) >>> 4
    let header_size := 4 * (byte0 &&& 0x0f)
    if version ≠ 4 then .error .invalidVersion
    else if data.length < header_size then .error .invalidHeaderSize
    else
      match IpV4Protocol.decode (data.getD 9 0) with
      | some protocol => .ok (protocol, data.drop header_size)
      | none => .error .unknownProtocol

example : EchoReply.decode IcmpV4 [8, 0, 0, 0, 0, 0, 0, 0] = .ok (0, 0, []) := rfl

example : EchoReply.decode IcmpV4 [8, 1, 0, 0, 0, 0, 0, 0] =
    .error .invalidPacket := rfl

example : IpV4Packet.decode (List.replicate 20 0) = .error .invalidVersion := rfl

example :
    IpV4Packet.decode
      (69 :: 0 :: 0 :: 0 :: 0 :: 0 :: 0 :: 0 :: 0 :: 1 :: List.replicate 12 7) =
    .ok (.Icmp, [7, 7]) := rfl

/-! ## Raw-ICMP worker: in-flight table (`src/linux.rs`) -/

/-- `IN_FLIGHT_TO_RETAIN` from `src/linux.rs`. -/
def IN_FLIGHT_TO_RETAIN : Nat := 10

/-- The in-flight table: entries `(token, send_time)`. The `HashMap` keeps
one entry per token; iteration order is irrelevant here because the
eviction key below is selected by send time, and the claims assume all
send times are distinct. -/
abbrev InFlightTable := List (Nat × Nat)

/-- Remove the entry with the given token (`HashMap::remove`; keys are
unique, so removing the first occurrence suffices). -/
def removeKey (k : Nat) : InFlightTable → InFlightTable
  | [] => []
  | e :: rest => if e.1 = k then rest else e :: removeKey k rest

/-- `HashMap::insert`: replace any entry with the same token, add the new
entry. -/
def insertKey (t : InFlightTable) (k v : Nat) : InFlightTable :=
  removeKey k t ++ [(k, v)]

/-- The eviction key selection in `Pinger::new`:
`iter().max_by(|(_, at), (_, bt)| at.elapsed().cmp(&bt.elapsed()))` —
the entry with the greatest elapsed time, i.e. the least send time. -/
def oldestEntry : InFlightTable → Option (Nat × Nat)
  | [] => none
  | e :: rest =>
    match oldestEntry rest with
    | none => some e
    | some m => some (if m.2 < e.2 then m else e)

/-- The eviction loop `while in_flight_table.len() > IN_FLIGHT_TO_RETAIN`,
compiled with the explicit variant `length - IN_FLIGHT_TO_RETAIN`: each
iteration removes the single oldest entry (which always exists while the
condition holds, so exactly that many iterations run). -/
def evictLoop : Nat → InFlightTable → InFlightTable
  | 0, t => t
  | n + 1, t =>
    match oldestEntry t with
    | none => t
    | some e => evictLoop n (removeKey e.1 t)

/-- One send-phase update of the in-flight table in `Pinger::new`:
`in_flight_table.insert(payload, send_time)` followed by the eviction
loop. -/
def sendPhase (t : InFlightTable) (token send_time : Nat) : InFlightTable :=
  let t' := insertKey t token send_time
  evictLoop (t'.length - IN_FLIGHT_TO_RETAIN) t'

/-- Run a sequence of send phases (one per probe) from a starting table. -/
def runSends (t : InFlightTable) (ps : List (Nat × Nat)) : InFlightTable :=
  ps.foldl (fun t p => sendPhase t p.1 p.2) t

/-! ## Raw-ICMP worker: capability handling control flow (`src/linux.rs`) -/

/-- The privilege-relevant events of the raw-ICMP worker thread, in program
order. -/
inductive CapEvent
  | raiseCap
  | createSocket (ok : Bool)
  | loopCycle
  | closePipe
  | dropCap
  deriving DecidableEq, Repr

/-- The worker thread body of `Pinger::new` in `src/linux.rs`, projected to
its privilege-relevant events: it calls `raise_cap_net_raw_to_effective`,
creates the raw socket, and on creation failure returns at once (no
further events). On success it runs the select/send/receive loop for some
number of cycles, closes the read pipe, and only then calls
`drop_cap_net_raw_caps_from_effective`. -/
def workerTrace (socketOk : Bool) (cycles : Nat) : List CapEvent :=
  [.raiseCap, .createSocket socketOk] ++
    if socketOk then List.replicate cycles .loopCycle ++ [.closePipe, .dropCap]
    else []

/-- Effect of one event on whether CAP_NET_RAW is in the effective set. -/
def capStep (held : Bool) (e : CapEvent) : Bool :=
  match e with
  | .raiseCap => true
  | .dropCap => false
  | _ => held

/-- Whether CAP_NET_RAW is in the effective set after a sequence of events
(initially it is not). -/
def capEffective (events : List CapEvent) : Bool :=
  events.foldl capStep false

example : capEffective (workerTrace false 0) = true := rfl
example : capEffective (workerTrace true 3) = false := rfl
example : capEffective ((workerTrace true 3).take 4) = true := rfl

/-! ## Line parsing (`pinger/src/lib.rs`, `pinger/src/linux.rs`) -/

/-- ASCII lowercasing, for the regex's case-insensitive `(?i)` flag. -/
def toLowerAscii (c : Char) : Char :=
  if 'A' ≤ c ∧ c ≤ 'Z' then Char.ofNat (c.toNat + 32) else c

/-- Case-insensitive character comparison. -/
def charCI (a b : Char) : Bool :=
  toLowerAscii a == toLowerAscii b

/-- ASCII digit test: the regex's `\d` under the `-u` flag. -/
def isAsciiDigit (c : Char) : Bool :=
  '0' ≤ c && c ≤ '9'

/-- Strip a pattern from the front of the input, comparing characters
case-insensitively; yields the rest on success. -/
def stripCI : Str → Str → Option Str
  | [], l => some l
  | _ :: _, [] => none
  | p :: ps, c :: cs => if charCI p c then stripCI ps cs else none

/-- Match `UBUNTU_RE` = `(?i-u)time=(?P<ms>\d+)(?:\.(?P<ns>\d+))? *ms` at
the start of the input, returning the `ms` and optional `ns` captures. The
pattern's character classes are disjoint from every literal that can
follow them, so the regex's greedy backtracking semantics coincide with
this maximal-munch matcher: each `\d+` and the space run must be maximal,
and the optional fraction group participates exactly when a dot followed
by a digit is present. -/
def matchTimeAt (l : Str) : Option (Str × Option Str) :=
  match stripCI ("time=".data) l with
  | none => none
  | some r0 =>
    let ms := r0.takeWhile isAsciiDigit
    let r1 := r0.dropWhile isAsciiDigit
    if ms.isEmpty then none
    else
      let step : Option Str × Str :=
        match r1 with
        | '.' :: r =>
          let d := r.takeWhile isAsciiDigit
          if d.isEmpty then (none, r1) else (some d, r.dropWhile isAsciiDigit)
        | _ => (none, r1)
      let r3 := step.2.dropWhile (fun c => c == ' ')
      match r3 with
      | a :: b :: _ => if charCI a 'm' && charCI b 's' then some (ms, step.1) else none
      | _ => none

/-- `Regex::captures`: the leftmost match of `UBUNTU_RE` in the line. -/
def findTime : Str → Option (Str × Option Str)
  | [] => none
  | c :: rest =>
    match matchTimeAt (c :: rest) with
    | some r => some r
    | none => findTime rest

/-- Numeric value of a digit string (`str::parse::<u64>` before its range
check). -/
def digitsToNat (l : Str) : Nat :=
  l.foldl (fun acc c => acc * 10 + (c.toNat - 48)) 0

/-- Outcome of `Parser::extract_regex`: no event (`None`), a `Pong` with a
total duration in nanoseconds, or an arithmetic-overflow panic. -/
inductive ExtractOutcome
  | noResult
  | panicked
  | pong (ns : DurationNs)
  deriving DecidableEq, Repr

/-- `Parser::extract_regex` of `pinger/src/lib.rs` applied to `UBUNTU_RE`:
no regex match, or a failed `u64` parse (value at least `2 ^ 64`), yields
no result; a matched fraction of more than 6 digits makes the `u32`
subtraction `6 - number_of_digits` in
`fractional_ms * (10u64.pow(6 - number_of_digits))` overflow, which panics
under checked arithmetic; otherwise the duration is
`Duration::from_millis(ms) + Duration::from_nanos(ns)`. -/
def extract_regex (line : Str) : ExtractOutcome :=
  match findTime line with
  | none => .noResult
  | some (msDigits, nsDigits) =>
    let ms := digitsToNat msDigits
    if 2 ^ 64 ≤ ms then .noResult
    else
      match nsDigits with
      | none => .pong (ms * 1000000)
      | some d =>
        let fractional_ms := digitsToNat d
        if 2 ^ 64 ≤ fractional_ms then .noResult
        else if 6 < d.length then .panicked
        else .pong (ms * 1000000 + fractional_ms * 10 ^ (6 - d.length))

/-- Outcome of `LinuxParser::parse`: `None`, `Some(result)`, or a panic
propagated from `extract_regex`. -/
inductive ParseOutcome
  | noEvent
  | panicked
  | ev (r : PingResult)
  deriving DecidableEq, Repr

/-- Strip one trailing carriage return (`str::lines` trims `\r\n`). -/
def stripCR (l : Str) : Str :=
  match l.getLast? with
  | some c => if c = '\r' then l.dropLast else l
  | none => l

/-- Split at every newline, keeping empty pieces. -/
def splitNL : Str → List Str
  | [] => [[]]
  | c :: rest =>
    let r := splitNL rest
    if c = '\n' then [] :: r
    else
      match r with
      | h :: t => (c :: h) :: t
      | [] => [[c]]

/-- `str::lines`: newline-separated pieces, a final unterminated piece kept
only when nonempty, `\r\n` treated as a line ending. -/
def rustLines (s : Str) : List Str :=
  let parts := splitNL s
  let parts := if parts.getLast? = some [] then parts.dropLast else parts
  parts.map stripCR

/-- `LinuxParser::parse` of `pinger/src/linux.rs`: scan the lines of the
input; the first line starting with `64 bytes from` is fed to
`extract_regex` and its outcome returned; if no line matches, the parser
returns `Some(PingResult::Failed("1", "Failed to parse: {lines}"))`. -/
def LinuxParser.parse (lines : Str) : ParseOutcome :=
  match (rustLines lines).find? (fun l => ("64 bytes from".data).isPrefixOf l) with
  | some line =>
    match extract_regex line with
    | .noResult => .noEvent
    | .panicked => .panicked
    | .pong ns => .ev (.Pong ns line)
  | none => .ev (.Failed ("1".data) (("Failed to parse: ".data) ++ lines))

/-- Whether the leftmost `UBUNTU_RE` match in a line carries a fractional
part longer than 6 digits (the only way `extract_regex` can panic). -/
def hasLongFrac (l : Str) : Bool :=
  match findTime l with
  | some (_, some d) => decide (6 < d.length)
  | _ => false

/-- Whether a parse outcome is an emitted `Timeout` event. -/
def isTimeoutEvent : ParseOutcome → Bool
  | .ev (.Timeout _) => true
  | _ => false

/-! ## TCP connect strategy (`pinger/src/tcp.rs`) -/

/-- Outcome of `to_socket_addrs()` plus the `addrs.next()` lookup in
`TcpPinger::start`. -/
inductive ResolveOutcome
  | ok (addr : Str)
  | emptyList
  | err (msg : Str)
  deriving DecidableEq, Repr

/-- Outcome of `TcpStream::connect_timeout`, split by the error kind the
code inspects. -/
inductive ConnectOutcome
  | connected
  | connectionRefused
  | timedOut
  | otherError
  deriving DecidableEq, Repr

/-- One iteration of the loop in `TcpPinger::start`, as a function of the
attempt's outcomes: the event sent on the channel (if any) and whether the
iteration reaches the `thread::sleep(options.interval)` at the bottom of
the loop. Both resolution-failure arms `continue`, skipping the sleep; a
connect error is a `Pong` exactly when it is `ConnectionRefused` and
`options.allow_rst` is set, and a `Timeout` otherwise. -/
def tcpAttemptStep (allow_rst : Bool) (r : ResolveOutcome) (c : ConnectOutcome)
    (elapsed : DurationNs) : Option PingResult × Bool :=
  match r with
  | .emptyList => (some (.Unknown ("Unable to resolve address".data)), false)
  | .err m => (some (.Unknown (("Resolve error: ".data) ++ m)), false)
  | .ok addr =>
    match c with
    | .connected => (some (.Pong elapsed addr), true)
    | .connectionRefused =>
      if allow_rst then (some (.Pong elapsed addr), true)
      else (some (.Timeout addr), true)
    | .timedOut => (some (.Timeout addr), true)
    | .otherError => (some (.Timeout addr), true)

/-! ## Fake strategy (`pinger/src/fake.rs`) -/

/-- The result built each cycle by `FakePinger::start` from the value
`fake_seconds = random.gen_range(50..150)`:
`Pong(Duration::from_millis(fake_seconds), "Fake ping line: {fake_seconds} ms")`. -/
def fakePingResult (fake_seconds : Nat) : PingResult :=
  .Pong (fake_seconds * 1000000)
    (("Fake ping line: ".data) ++ (toString fake_seconds).data ++ (" ms".data))

/-- The possible outcomes of `gen_range(50..150)`: the half-open range,
including 50 and excluding 150. -/
def genRange50150 (n : Nat) : Prop :=
  50 ≤ n ∧ n < 150

instance (n : Nat) : Decidable (genRange50150 n) := by
  unfold genRange50150
  infer_instance

/-- Duration of a `Pong` result, if it is one. -/
def pongNs : PingResult → Option DurationNs
  | .Pong ns _ => some ns
  | _ => none

example :
    extract_regex ("time=23.1 ms".data) = .pong 23100000 := by decide
example :
    extract_regex ("time=14ms".data) = .pong 14000000 := by decide
example :
    extract_regex ("time=1.1234567 ms".data) = .panicked := by decide
example :
    LinuxParser.parse
      ("64 bytes from 1.1.1.1: icmp_seq=1 ttl=64 time=23.1 ms".data) =
      .ev (.Pong 23100000 ("64 bytes from 1.1.1.1: icmp_seq=1 ttl=64 time=23.1 ms".data)) := by
  decide

/-! ## Helper lemmas -/

set_option maxRecDepth 4096 in
/-- Nibble extraction on bytes: the masking in `IpV4Packet::decode` computes
the high and low nibble. -/
theorem nibbleFacts : ∀ b < 256, (b &&& 0xf0) >>> 4 = b / 16 ∧ b &&& 0x0f = b % 16 := by
  decide

/-- The head of a nonempty list is `getD 0`. -/
theorem getD_zero_mem (data : List Nat) (h : data ≠ []) : data.getD 0 0 ∈ data := by
  cases data with
  | nil => exact absurd rfl h
  | cons a t => simp [List.getD]

/-- Folding `capStep` over events that contain no `dropCap` keeps the
capability raised. -/
theorem capFold_no_drop (l : List CapEvent) (h : ∀ e ∈ l, e ≠ CapEvent.dropCap) :
    List.foldl capStep true l = true := by
  induction l with
  | nil => rfl
  | cons e rest ih =>
    have he := h e (List.mem_cons_self e rest)
    have hrest : ∀ x ∈ rest, x ≠ CapEvent.dropCap :=
      fun x hx => h x (List.mem_cons_of_mem e hx)
    cases e with
    | dropCap => exact absurd rfl he
    | raiseCap => simpa [capStep] using ih hrest
    | createSocket ok => simpa [capStep] using ih hrest
    | loopCycle => simpa [capStep] using ih hrest
    | closePipe => simpa [capStep] using ih hrest

/-- Folding `capStep` over loop cycles keeps the current state. -/
theorem capFold_replicate (n : Nat) (b : Bool) :
    List.foldl capStep b (List.replicate n CapEvent.loopCycle) = b := by
  induction n with
  | zero => rfl
  | succ k ih => simpa [List.replicate_succ, capStep] using ih

/-! ## Claims -/

/-- C1 (corrected). `EchoReply::decode` fails with `InvalidSize` on buffers
shorter than 8 bytes. On buffers of length at least 8 it fails with
`InvalidPacket` exactly when the type byte and the code byte BOTH differ
from the reply constants of the protocol (IPv4 or IPv6); whenever the type
matches `ECHO_REPLY_TYPE` or the code matches `ECHO_REPLY_CODE`, it
succeeds and returns the big-endian identifier from bytes 4-5, the
big-endian sequence from bytes 6-7, and bytes 8.. as payload. -/
theorem C1_decode_characterization (P : Proto) (hP : P = IcmpV4 ∨ P = IcmpV6)
    (buffer : List Nat) :
    (buffer.length < 8 → EchoReply.decode P buffer = .error .invalidSize) ∧
    (8 ≤ buffer.length → buffer.getD 0 0 ≠ P.ECHO_REPLY_TYPE →
      buffer.getD 1 0 ≠ P.ECHO_REPLY_CODE →
      EchoReply.decode P buffer = .error .invalidPacket) ∧
    (8 ≤ buffer.length →
      (buffer.getD 0 0 = P.ECHO_REPLY_TYPE ∨ buffer.getD 1 0 = P.ECHO_REPLY_CODE) →
      EchoReply.decode P buffer =
        .ok (buffer.getD 4 0 * 256 + buffer.getD 5 0,
          buffer.getD 6 0 * 256 + buffer.getD 7 0, buffer.drop 8)) := by
  clear hP
  unfold EchoReply.decode ICMP_HEADER_SIZE
  refine ⟨fun h => by rw [if_pos h], fun hlen ht hc => ?_, fun hlen hor => ?_⟩
  · rw [if_neg (by omega), if_pos ⟨ht, hc⟩]
  · rw [if_neg (by omega), if_neg (by tauto)]

/-- C1 counterexample. A buffer whose type byte is 8 (an IPv4 echo REQUEST,
not the reply type 0) but whose code byte is 0 decodes successfully,
because the source only rejects when type AND code both mismatch; the
claim requires failure with `InvalidPacket` here. -/
theorem C1_counterexample :
    (8 : Nat) ≠ IcmpV4.ECHO_REPLY_TYPE ∧
    EchoReply.decode IcmpV4 [8, 0, 0, 0, 0, 0, 0, 0] = .ok (0, 0, []) :=
  ⟨by decide, rfl⟩

/-- C1 witness: the characterization applied to a concrete reply buffer. -/
theorem C1_witness :
    EchoReply.decode IcmpV4 [0, 0, 0, 0, 1, 2, 0, 3] = .ok (258, 3, []) := by
  have h := C1_decode_characterization IcmpV4 (Or.inl rfl) [0, 0, 0, 0, 1, 2, 0, 3]
  simpa using h.2.2 (by decide) (Or.inl (by decide))

/-- C4 (confirmed). `IpV4Packet::decode` fails with `TooSmall` below 20
bytes; then with `InvalidVersion` when the high nibble of byte 0 is not 4
(whatever the other bytes hold); then with `InvalidHeaderSize` when 4
times the low nibble exceeds the buffer length; then with
`UnknownProtocol` when byte 9 is not 1; otherwise it succeeds with
protocol ICMP and exactly the bytes after the header as payload. -/
theorem C4_ipv4_decode (data : List Nat) (hb : ∀ b ∈ data, b < 256) :
    (data.length < 20 → IpV4Packet.decode data = .error .tooSmall) ∧
    (20 ≤ data.length → data.getD 0 0 / 16 ≠ 4 →
      IpV4Packet.decode data = .error .invalidVersion) ∧
    (20 ≤ data.length → data.getD 0 0 / 16 = 4 →
      data.length < 4 * (data.getD 0 0 % 16) →
      IpV4Packet.decode data = .error .invalidHeaderSize) ∧
    (20 ≤ data.length → data.getD 0 0 / 16 = 4 →
      4 * (data.getD 0 0 % 16) ≤ data.length → data.getD 9 0 ≠ 1 →
      IpV4Packet.decode data = .error .unknownProtocol) ∧
    (20 ≤ data.length → data.getD 0 0 / 16 = 4 →
      4 * (data.getD 0 0 % 16) ≤ data.length → data.getD 9 0 = 1 →
      IpV4Packet.decode data = .ok (.Icmp, data.drop (4 * (data.getD 0 0 % 16)))) := by
  simp only [IpV4Packet.decode, MINIMUM_PACKET_SIZE, IpV4Protocol.decode]
  by_cases hlen : data.length < 20
  · exact ⟨fun _ => by rw [if_pos hlen], fun h _ => by omega, fun h _ _ => by omega,
      fun h _ _ _ => by omega, fun h _ _ _ => by omega⟩
  · have hne : data ≠ [] := by
      intro h
      rw [h] at hlen
      simp at hlen
    have hb0 : data.getD 0 0 < 256 := hb _ (getD_zero_mem data hne)
    obtain ⟨hhi, hlo⟩ := nibbleFacts (data.getD 0 0) hb0
    simp only [if_neg hlen, hhi, hlo]
    refine ⟨fun h => by omega, fun _ hv => by rw [if_pos hv], fun _ hv hsz => ?_,
      fun _ hv hsz hp => ?_, fun _ hv hsz hp => ?_⟩
    · rw [if_neg (by omega), if_pos (by omega)]
    · rw [if_neg (by omega), if_neg (by omega), if_neg hp]
    · rw [if_neg (by omega), if_neg (by omega), if_pos hp]

/-- C4 witness: the characterization applied to a concrete ICMP-in-IPv4
packet. -/
theorem C4_witness :
    IpV4Packet.decode
      (69 :: 0 :: 0 :: 0 :: 0 :: 0 :: 0 :: 0 :: 0 :: 1 :: List.replicate 12 7) =
      .ok (.Icmp, [7, 7]) := by
  have h := C4_ipv4_decode
    (69 :: 0 :: 0 :: 0 :: 0 :: 0 :: 0 :: 0 :: 0 :: 1 :: List.replicate 12 7)
    (by decide)
  simpa using h.2.2.2.2 (by decide) (by decide) (by decide) (by decide)

/-- C6 counterexample. On the socket-creation error path the worker thread
returns immediately (`return;` in `Pinger::new`) without calling
`drop_cap_net_raw_caps_from_effective`, so CAP_NET_RAW is still in the
effective set when the worker has returned — the claim requires it to be
released unconditionally, even on this error path. -/
theorem C6_counterexample : capEffective (workerTrace false 0) = true := rfl

/-- C6 (corrected). The worker raises CAP_NET_RAW as its first action,
before socket creation. On the success path the capability stays in the
effective set through every loop cycle (every proper prefix after the
raise still holds it) and is dropped only by the final event of the
worker, after the loop and the pipe close — not immediately after socket
creation; at worker exit it is no longer held. On the creation-error path
the worker returns with the capability still held. -/
theorem C6_cap_lifecycle (n : Nat) :
    (workerTrace true n).head? = some CapEvent.raiseCap ∧
    (workerTrace false n).head? = some CapEvent.raiseCap ∧
    capEffective (workerTrace false n) = true ∧
    capEffective (workerTrace true n) = false ∧
    (workerTrace true n).getLast? = some CapEvent.dropCap ∧
    (∀ k, 1 ≤ k → k < n + 4 → capEffective ((workerTrace true n).take k) = true) := by
  refine ⟨by simp [workerTrace], by simp [workerTrace], rfl, ?_, ?_, ?_⟩
  · show List.foldl capStep false _ = false
    simp [workerTrace, List.foldl_append, capFold_replicate, capStep]
  · have hform : workerTrace true n =
        (CapEvent.raiseCap :: CapEvent.createSocket true ::
          List.replicate n CapEvent.loopCycle ++ [CapEvent.closePipe]) ++
          [CapEvent.dropCap] := by
      simp [workerTrace]
    rw [hform, List.getLast?_concat]
  · intro k hk1 hk2
    obtain ⟨j, rfl⟩ : ∃ j, k = j + 1 := ⟨k - 1, by omega⟩
    have hform : workerTrace true n =
        CapEvent.raiseCap ::
          ((CapEvent.createSocket true :: List.replicate n CapEvent.loopCycle ++
            [CapEvent.closePipe]) ++ [CapEvent.dropCap]) := by
      simp [workerTrace]
    rw [hform, List.take_succ_cons]
    have hj : j ≤ (CapEvent.createSocket true :: List.replicate n CapEvent.loopCycle ++
        [CapEvent.closePipe]).length := by
      simp
      omega
    rw [List.take_append_of_le_length hj]
    show List.foldl capStep (capStep false CapEvent.raiseCap) _ = true
    have hstep : capStep false CapEvent.raiseCap = true := rfl
    rw [hstep]
    apply capFold_no_drop
    intro e he
    have hmem := List.take_subset j _ he
    simp [List.mem_replicate] at hmem
    rcases hmem with rfl | ⟨_, rfl⟩ | rfl <;> simp

/-- C6 witness: the lifecycle theorem at one loop cycle and prefix length
two (just after socket creation: the capability is still held there). -/
theorem C6_witness : capEffective ((workerTrace true 1).take 2) = true := by
  have h := C6_cap_lifecycle 1
  exact h.2.2.2.2.2 2 (by decide) (by decide)

/-- C7 counterexample. On the line `no answer yet for icmp_seq=2` the Linux
parser of `pinger/src/linux.rs` does not produce a `Timeout` event (it
produces `Some(PingResult::Failed("1", "Failed to parse: ..."))`), while
the claim requires `Timeout`. -/
theorem C7_counterexample :
    isTimeoutEvent (LinuxParser.parse ("no answer yet for icmp_seq=2".data)) = false := by
  decide

/-- C7 (corrected). On the iputils success line the parser produces
`Pong` with duration exactly 23.1 ms (23 ms plus 1 tenth converted as
`1 * 10 ^ 5` nanoseconds); but on `no answer yet for icmp_seq=2` and on
the `PING ...` banner it produces a `Failed("1", "Failed to parse: ...")`
event — there is no `no answer yet` handling and no silent `None` for
banners in this parser. -/
theorem C7_linux_parser_fixtures :
    LinuxParser.parse ("64 bytes from 1.1.1.1: icmp_seq=1 ttl=64 time=23.1 ms".data) =
      .ev (.Pong 23100000 ("64 bytes from 1.1.1.1: icmp_seq=1 ttl=64 time=23.1 ms".data)) ∧
    LinuxParser.parse ("no answer yet for icmp_seq=2".data) =
      .ev (.Failed ("1".data) ("Failed to parse: no answer yet for icmp_seq=2".data)) ∧
    LinuxParser.parse ("PING 1.1.1.1 (1.1.1.1) 56(84) bytes of data.".data) =
      .ev (.Failed ("1".data)
        ("Failed to parse: PING 1.1.1.1 (1.1.1.1) 56(84) bytes of data.".data)) := by
  refine ⟨by decide, by decide, by decide⟩

/-- C8 counterexample. When address resolution fails, the loop in
`TcpPinger::start` hits `continue` and never reaches
`thread::sleep(options.interval)` — the claim requires a sleep after every
attempt including resolution failures. -/
theorem C8_counterexample :
    (tcpAttemptStep true (ResolveOutcome.err ("x".data)) ConnectOutcome.connected 0).2 =
      false := by
  decide

/-- C8 (corrected). A successful connect yields `Pong(elapsed, address)`;
a refused connection yields `Pong` exactly when `allow_rst` is set and
`Timeout(address)` otherwise; timeouts and all other connect errors yield
`Timeout(address)`; resolution failures yield `Unknown(message)`. The
interval sleep runs after every connect attempt, but on resolution
failure the worker retries immediately without sleeping. -/
theorem C8_tcp_classification (allow_rst : Bool) (addr m : Str)
    (c : ConnectOutcome) (elapsed : DurationNs) :
    tcpAttemptStep allow_rst ResolveOutcome.emptyList c elapsed =
      (some (.Unknown ("Unable to resolve address".data)), false) ∧
    tcpAttemptStep allow_rst (ResolveOutcome.err m) c elapsed =
      (some (.Unknown (("Resolve error: ".data) ++ m)), false) ∧
    tcpAttemptStep allow_rst (ResolveOutcome.ok addr) ConnectOutcome.connected elapsed =
      (some (.Pong elapsed addr), true) ∧
    ((tcpAttemptStep allow_rst (ResolveOutcome.ok addr) ConnectOutcome.connectionRefused
        elapsed).1 = some (.Pong elapsed addr) ↔ allow_rst = true) ∧
    tcpAttemptStep allow_rst (ResolveOutcome.ok addr) ConnectOutcome.connectionRefused
        elapsed =
      (some (if allow_rst then .Pong elapsed addr else .Timeout addr), true) ∧
    tcpAttemptStep allow_rst (ResolveOutcome.ok addr) ConnectOutcome.timedOut elapsed =
      (some (.Timeout addr), true) ∧
    tcpAttemptStep allow_rst (ResolveOutcome.ok addr) ConnectOutcome.otherError elapsed =
      (some (.Timeout addr), true) := by
  cases allow_rst <;> simp [tcpAttemptStep]

/-- C9 counterexample. A success line whose `time=` fraction has 7 digits
drives `extract_regex` into the `u32` subtraction `6 - 7`, which overflows:
the parser panics instead of returning normally. -/
theorem C9_counterexample :
    LinuxParser.parse
      ("64 bytes from 1.1.1.1: icmp_seq=1 ttl=64 time=23.1234567 ms".data) =
      ParseOutcome.panicked := by
  decide

/-- Helper for C9: with a fraction of at most 6 digits (or none),
`extract_regex` cannot panick. -/
theorem extract_regex_no_panic (l : Str) (h : hasLongFrac l = false) :
    extract_regex l ≠ ExtractOutcome.panicked := by
  unfold extract_regex
  unfold hasLongFrac at h
  cases hft : findTime l with
  | none => simp
  | some caps =>
    obtain ⟨msDigits, nsDigits⟩ := caps
    rw [hft] at h
    cases nsDigits with
    | none =>
      dsimp only
      split_ifs <;> simp
    | some d =>
      have hd : ¬ 6 < d.length := by simpa using h
      dsimp only
      split_ifs <;> first
      | simp
      | omega

/-- C9 (corrected). The Linux parser returns normally (an event or no
event, never a panic) on every input string whose lines carry no
`time=` match with a fractional part longer than 6 digits; with a longer
matched fraction the `u32` exponent `6 - number_of_digits` in the
nanosecond conversion overflows and the conversion panics under checked
arithmetic (silently wrapping otherwise) rather than returning. -/
theorem C9_no_panic_up_to_6_digits (s : Str)
    (h : ∀ l ∈ rustLines s, hasLongFrac l = false) :
    LinuxParser.parse s ≠ ParseOutcome.panicked := by
  unfold LinuxParser.parse
  cases hf : (rustLines s).find? (fun l => ("64 bytes from".data).isPrefixOf l) with
  | none => simp
  | some line =>
    have hmem : line ∈ rustLines s := List.mem_of_find?_eq_some hf
    have hnl := extract_regex_no_panic line (h line hmem)
    cases hx : extract_regex line with
    | noResult => simp [hx]
    | panicked => exact absurd hx hnl
    | pong ns => simp [hx]

/-- C9 witness: the no-panic theorem applied to a concrete line with one
fractional digit. -/
theorem C9_witness :
    LinuxParser.parse ("64 bytes from 1.1.1.1: time=1.5 ms".data) ≠
      ParseOutcome.panicked :=
  C9_no_panic_up_to_6_digits ("64 bytes from 1.1.1.1: time=1.5 ms".data) (by decide)

/-- C10 counterexample. `gen_range(50..150)` samples the half-open range,
so 50 is a possible outcome, and its `Pong` duration is exactly 50 ms —
not strictly greater than 50 ms as the claim requires. -/
theorem C10_counterexample :
    genRange50150 50 ∧ pongNs (fakePingResult 50) = some 50000000 ∧
      ¬ 50 * 1000000 < 50000000 := by
  refine ⟨by decide, rfl, by decide⟩

/-- C10 (corrected). Every result of the fake pinger is a `Pong` whose
duration is `fake_seconds` milliseconds with `fake_seconds` drawn from
`gen_range(50..150)`: at least 50 ms (inclusive) and strictly less than
150 ms, for every possible generator outcome. -/
theorem C10_fake_range (n : Nat) (h : genRange50150 n) :
    pongNs (fakePingResult n) = some (n * 1000000) ∧
      50 * 1000000 ≤ n * 1000000 ∧ n * 1000000 < 150 * 1000000 := by
  obtain ⟨h1, h2⟩ := h
  exact ⟨rfl, by omega, by omega⟩

/-- C10 witness: the range theorem at generator outcome 99. -/
theorem C10_witness :
    pongNs (fakePingResult 99) = some (99 * 1000000) ∧
      50 * 1000000 ≤ 99 * 1000000 ∧ 99 * 1000000 < 150 * 1000000 :=
  C10_fake_range 99 (by decide)

/-- Helper: on a large-enough destination buffer, `EchoRequest.encode`
produces `write_checksum` of the buffer whose header carries type, code,
the destination's original bytes 2-3 (the checksum placeholder), the
big-endian identifier and sequence, then the payload, then the
destination's bytes beyond header+payload. -/
theorem encode_eq (P : Proto) (ident seq_cnt : Nat) (payload buffer : List Nat)
    (h : ICMP_HEADER_SIZE + payload.length ≤ buffer.length) :
    EchoRequest.encode P ident seq_cnt payload buffer =
      some (write_checksum
        (P.ECHO_REQUEST_TYPE :: P.ECHO_REQUEST_CODE :: buffer.getD 2 0 ::
          buffer.getD 3 0 :: (ident / 256 % 256) :: (ident % 256) ::
          (seq_cnt / 256 % 256) :: (seq_cnt % 256) ::
          (payload ++ buffer.drop (8 + payload.length)))) := by
  rcases buffer with _ | ⟨b0, _ | ⟨b1, _ | ⟨b2, _ | ⟨b3, _ | ⟨b4, _ | ⟨b5, _ | ⟨b6, _ |
    ⟨b7, rest⟩⟩⟩⟩⟩⟩⟩⟩ <;>
    simp only [ICMP_HEADER_SIZE, List.length_nil, List.length_cons] at h <;>
    try (exact absurd h (by omega))
  unfold EchoRequest.encode
  rw [if_neg (by simp [ICMP_HEADER_SIZE]; omega)]
  show some (write_checksum
      (P.ECHO_REQUEST_TYPE :: P.ECHO_REQUEST_CODE :: b2 :: b3 ::
        (ident / 256 % 256) :: (ident % 256) ::
        (seq_cnt / 256 % 256) :: (seq_cnt % 256) ::
        (payload ++ List.drop (8 + payload.length)
          (P.ECHO_REQUEST_TYPE :: P.ECHO_REQUEST_CODE :: b2 :: b3 ::
            (ident / 256 % 256) :: (ident % 256) ::
            (seq_cnt / 256 % 256) :: (seq_cnt % 256) :: rest)))) = _
  rw [show List.drop (8 + payload.length)
      (P.ECHO_REQUEST_TYPE :: P.ECHO_REQUEST_CODE :: b2 :: b3 ::
        (ident / 256 % 256) :: (ident % 256) ::
        (seq_cnt / 256 % 256) :: (seq_cnt % 256) :: rest) =
      rest.drop payload.length from by
        rw [← List.drop_drop]
        rfl]
  rw [show List.drop (8 + payload.length)
      (b0 :: b1 :: b2 :: b3 :: b4 :: b5 :: b6 :: b7 :: rest) =
      rest.drop payload.length from by
        rw [← List.drop_drop]
        rfl]
  rfl

/-- Helper: decoding a well-formed reply buffer laid out as
type, code, two checksum bytes, four identifier/sequence bytes, payload. -/
theorem decode_reply_consform (P : Proto) (c2 c3 b4 b5 b6 b7 : Nat)
    (tail : List Nat) :
    EchoReply.decode P
        (P.ECHO_REPLY_TYPE :: P.ECHO_REPLY_CODE :: c2 :: c3 :: b4 :: b5 :: b6 :: b7 ::
          tail) =
      .ok (b4 * 256 + b5, b6 * 256 + b7, tail) := by
  unfold EchoReply.decode
  rw [if_neg (by simp [ICMP_HEADER_SIZE])]
  dsimp only
  rw [if_neg (by simp)]
  rfl

/-- C2 (confirmed). Encoding an echo request (any identifier, sequence and
payload, both protocol variants) into a buffer of length exactly
8 + len(payload), flipping the buffer's type and code bytes to the
protocol's reply constants, and decoding as an echo reply succeeds and
recovers exactly the original identifier, sequence and payload. -/
theorem C2_roundtrip (P : Proto) (hP : P = IcmpV4 ∨ P = IcmpV6)
    (ident seq_cnt : Nat) (hi : ident < 65536) (hs : seq_cnt < 65536)
    (payload buffer : List Nat) (hlen : buffer.length = 8 + payload.length) :
    ∃ encoded, EchoRequest.encode P ident seq_cnt payload buffer = some encoded ∧
      EchoReply.decode P (setReply P encoded) = .ok (ident, seq_cnt, payload) := by
  clear hP
  have h8 : ICMP_HEADER_SIZE + payload.length ≤ buffer.length := by
    simp [ICMP_HEADER_SIZE]
    omega
  have hEnc := encode_eq P ident seq_cnt payload buffer h8
  have htail : buffer.drop (8 + payload.length) = [] := by
    rw [← hlen]
    exact List.drop_length buffer
  rw [htail, List.append_nil] at hEnc
  refine ⟨_, hEnc, ?_⟩
  have hwc : setReply P (write_checksum
      (P.ECHO_REQUEST_TYPE :: P.ECHO_REQUEST_CODE :: buffer.getD 2 0 ::
        buffer.getD 3 0 :: (ident / 256 % 256) :: (ident % 256) ::
        (seq_cnt / 256 % 256) :: (seq_cnt % 256) :: payload)) =
      P.ECHO_REPLY_TYPE :: P.ECHO_REPLY_CODE ::
        (icmpChecksum
          (P.ECHO_REQUEST_TYPE :: P.ECHO_REQUEST_CODE :: buffer.getD 2 0 ::
            buffer.getD 3 0 :: (ident / 256 % 256) :: (ident % 256) ::
            (seq_cnt / 256 % 256) :: (seq_cnt % 256) :: payload) / 256) ::
        (icmpChecksum
          (P.ECHO_REQUEST_TYPE :: P.ECHO_REQUEST_CODE :: buffer.getD 2 0 ::
            buffer.getD 3 0 :: (ident / 256 % 256) :: (ident % 256) ::
            (seq_cnt / 256 % 256) :: (seq_cnt % 256) :: payload) % 256) ::
        (ident / 256 % 256) :: (ident % 256) ::
        (seq_cnt / 256 % 256) :: (seq_cnt % 256) :: payload := rfl
  rw [hwc, decode_reply_consform]
  have h1 : ident / 256 % 256 * 256 + ident % 256 = ident := by omega
  have h2 : seq_cnt / 256 % 256 * 256 + seq_cnt % 256 = seq_cnt := by omega
  rw [h1, h2]

/-- C2 witness: a concrete round trip over IPv4 with a 3-byte payload. -/
theorem C2_witness :
    ∃ encoded,
      EchoRequest.encode IcmpV4 4660 1 [1, 2, 3] (List.replicate 11 0) =
        some encoded ∧
      EchoReply.decode IcmpV4 (setReply IcmpV4 encoded) = .ok (4660, 1, [1, 2, 3]) :=
  C2_roundtrip IcmpV4 (Or.inl rfl) 4660 1 (by decide) (by decide) [1, 2, 3]
    (List.replicate 11 0) (by decide)

/-- C3 (confirmed). `EchoRequest::encode` fails exactly when the
destination buffer is smaller than header plus payload. Otherwise it
produces a buffer that starts with the type and code byte, carries at
bytes 2-3 (high byte first) the 16-bit one's-complement checksum — as
computed by summing big-endian 16-bit words with an odd trailing byte as a
zero-padded high byte, folding carries, and complementing — of the whole
buffer as it stood before the checksum was stored (type, code, the
placeholder bytes taken over from the destination, identifier, sequence,
payload, trailing destination bytes), the big-endian identifier at bytes
4-5 and sequence at 6-7, the payload at bytes 8.., and the destination's
remaining bytes unchanged beyond that, preserving the buffer length. -/
theorem C3_encode_characterization (P : Proto) (hP : P = IcmpV4 ∨ P = IcmpV6)
    (ident seq_cnt : Nat) (payload buffer : List Nat) :
    (EchoRequest.encode P ident seq_cnt payload buffer = none ↔
      buffer.length < 8 + payload.length) ∧
    (8 + payload.length ≤ buffer.length →
      ∃ r ck, EchoRequest.encode P ident seq_cnt payload buffer = some r ∧
        ck = icmpChecksum
          (P.ECHO_REQUEST_TYPE :: P.ECHO_REQUEST_CODE :: buffer.getD 2 0 ::
            buffer.getD 3 0 :: (ident / 256 % 256) :: (ident % 256) ::
            (seq_cnt / 256 % 256) :: (seq_cnt % 256) ::
            (payload ++ buffer.drop (8 + payload.length))) ∧
        r.take 2 = [P.ECHO_REQUEST_TYPE, P.ECHO_REQUEST_CODE] ∧
        r.getD 2 0 = ck / 256 ∧ r.getD 3 0 = ck % 256 ∧
        r.getD 4 0 = ident / 256 % 256 ∧ r.getD 5 0 = ident % 256 ∧
        r.getD 6 0 = seq_cnt / 256 % 256 ∧ r.getD 7 0 = seq_cnt % 256 ∧
        (r.drop 8).take payload.length = payload ∧
        r.drop (8 + payload.length) = buffer.drop (8 + payload.length) ∧
        r.length = buffer.length) := by
  clear hP
  constructor
  · unfold EchoRequest.encode ICMP_HEADER_SIZE
    by_cases hc : buffer.length < 8 + payload.length
    · rw [if_pos hc]
      exact iff_of_true rfl hc
    · rw [if_neg hc]
      exact iff_of_false (by dsimp only; simp) hc
  · intro h
    have hEnc := encode_eq P ident seq_cnt payload buffer
      (by simpa [ICMP_HEADER_SIZE] using h)
    refine ⟨_, _, hEnc, rfl, ?_⟩
    have hr : write_checksum
        (P.ECHO_REQUEST_TYPE :: P.ECHO_REQUEST_CODE :: buffer.getD 2 0 ::
          buffer.getD 3 0 :: (ident / 256 % 256) :: (ident % 256) ::
          (seq_cnt / 256 % 256) :: (seq_cnt % 256) ::
          (payload ++ buffer.drop (8 + payload.length))) =
        P.ECHO_REQUEST_TYPE :: P.ECHO_REQUEST_CODE ::
          (icmpChecksum
            (P.ECHO_REQUEST_TYPE :: P.ECHO_REQUEST_CODE :: buffer.getD 2 0 ::
              buffer.getD 3 0 :: (ident / 256 % 256) :: (ident % 256) ::
              (seq_cnt / 256 % 256) :: (seq_cnt % 256) ::
              (payload ++ buffer.drop (8 + payload.length))) / 256) ::
          (icmpChecksum
            (P.ECHO_REQUEST_TYPE :: P.ECHO_REQUEST_CODE :: buffer.getD 2 0 ::
              buffer.getD 3 0 :: (ident / 256 % 256) :: (ident % 256) ::
              (seq_cnt / 256 % 256) :: (seq_cnt % 256) ::
              (payload ++ buffer.drop (8 + payload.length))) % 256) ::
          (ident / 256 % 256) :: (ident % 256) ::
          (seq_cnt / 256 % 256) :: (seq_cnt % 256) ::
          (payload ++ buffer.drop (8 + payload.length)) := rfl
    rw [hr]
    refine ⟨rfl, rfl, rfl, rfl, rfl, rfl, rfl, ?_, ?_, ?_⟩
    · exact List.take_left payload _
    · conv_lhs => rw [← List.drop_drop]
      show List.drop payload.length
        (payload ++ buffer.drop (8 + payload.length)) =
        buffer.drop (8 + payload.length)
      exact List.drop_left payload _
    · simp [List.length_append, List.length_drop]
      omega

/-- C3 witness: the characterization applied to concrete buffers on either
side of the size boundary. -/
theorem C3_witness :
    EchoRequest.encode IcmpV4 1 2 [3] (List.replicate 8 0) = none ∧
    EchoRequest.encode IcmpV4 1 2 [3] (List.replicate 9 0) ≠ none := by
  have h1 := C3_encode_characterization IcmpV4 (Or.inl rfl) 1 2 [3] (List.replicate 8 0)
  have h2 := C3_encode_characterization IcmpV4 (Or.inl rfl) 1 2 [3] (List.replicate 9 0)
  exact ⟨h1.1.mpr (by decide), fun hc => absurd (h2.1.mp hc) (by decide)⟩

/-- Helper: removing an absent key leaves the table unchanged. -/
theorem removeKey_of_not_mem (k : Nat) (t : InFlightTable)
    (h : k ∉ t.map Prod.fst) : removeKey k t = t := by
  induction t with
  | nil => rfl
  | cons e rest ih =>
    simp only [List.map_cons, List.mem_cons] at h
    push_neg at h
    unfold removeKey
    rw [if_neg (fun hc => h.1 hc.symm), ih h.2]

/-- Helper: on a table whose send times are strictly increasing in
insertion order, the eviction key selection picks the first (oldest)
entry. -/
theorem oldestEntry_sorted (rest : InFlightTable) : ∀ e : Nat × Nat,
    ((e :: rest).map Prod.snd).Pairwise (· < ·) → oldestEntry (e :: rest) = some e := by
  induction rest with
  | nil => intro e _; rfl
  | cons f rs ih =>
    intro e hp
    simp only [List.map_cons, List.pairwise_cons] at hp
    have hef : e.2 < f.2 := hp.1 f.2 (by simp)
    have htail : ((f :: rs).map Prod.snd).Pairwise (· < ·) := by
      simp only [List.map_cons, List.pairwise_cons]
      exact hp.2
    show (match oldestEntry (f :: rs) with
      | none => some e
      | some m => some (if m.2 < e.2 then m else e)) = some e
    rw [ih f htail]
    dsimp only
    rw [if_neg (by omega)]

/-- Helper: starting from a table of at most 10 entries whose keys stay
distinct from all later tokens and whose send times are strictly
increasing across table and probes, the send phases keep exactly the last
10 entries of table-plus-probes. -/
theorem runSends_suffix : ∀ ps t : InFlightTable,
    ((t ++ ps).map Prod.fst).Nodup →
    ((t ++ ps).map Prod.snd).Pairwise (· < ·) →
    t.length ≤ 10 →
    runSends t ps = (t ++ ps).drop ((t ++ ps).length - 10) := by
  intro ps
  induction ps with
  | nil =>
    intro t _ _ hlen
    simp only [runSends, List.foldl_nil, List.append_nil]
    rw [Nat.sub_eq_zero_of_le hlen, List.drop_zero]
  | cons p rest ih =>
    intro t hnd hpw hlen
    have hfresh : p.1 ∉ t.map Prod.fst := by
      intro hc
      rw [List.map_append] at hnd
      exact List.disjoint_of_nodup_append hnd hc (by simp)
    have hins : insertKey t p.1 p.2 = t ++ [p] := by
      unfold insertKey
      rw [removeKey_of_not_mem _ _ hfresh]
    show runSends (sendPhase t p.1 p.2) rest = _
    by_cases hsmall : t.length < 10
    · have hsp : sendPhase t p.1 p.2 = t ++ [p] := by
        unfold sendPhase
        rw [hins]
        have hz : (t ++ [p]).length - IN_FLIGHT_TO_RETAIN = 0 := by
          simp only [List.length_append, List.length_cons, List.length_nil,
            IN_FLIGHT_TO_RETAIN]
          omega
        show evictLoop ((t ++ [p]).length - IN_FLIGHT_TO_RETAIN) (t ++ [p]) = t ++ [p]
        rw [hz]
        rfl
      have happ : (t ++ [p]) ++ rest = t ++ p :: rest := by simp
      have ih' := ih (t ++ [p]) (by rw [happ]; exact hnd) (by rw [happ]; exact hpw)
        (by simp only [List.length_append, List.length_cons, List.length_nil]; omega)
      rw [hsp, ih', happ]
    · have hlen10 : t.length = 10 := by omega
      obtain ⟨e, t0, rfl⟩ : ∃ e t0, t = e :: t0 := by
        cases t with
        | nil => simp at hlen10
        | cons e t0 => exact ⟨e, t0, rfl⟩
      simp only [List.length_cons] at hlen10
      have hsubApp : List.Sublist [p] (p :: rest) :=
        List.Sublist.cons₂ p (List.nil_sublist rest)
      have hsorted : ((e :: (t0 ++ [p])).map Prod.snd).Pairwise (· < ·) := by
        have hsub : List.Sublist ((e :: t0) ++ [p]) ((e :: t0) ++ p :: rest) :=
          List.Sublist.append_left hsubApp (e :: t0)
        exact hpw.sublist (hsub.map Prod.snd)
      have hsp : sendPhase (e :: t0) p.1 p.2 = t0 ++ [p] := by
        unfold sendPhase
        rw [hins]
        have hfuel : ((e :: t0) ++ [p]).length - IN_FLIGHT_TO_RETAIN = 1 := by
          simp only [List.length_append, List.length_cons, List.length_nil,
            IN_FLIGHT_TO_RETAIN]
          omega
        show evictLoop (((e :: t0) ++ [p]).length - IN_FLIGHT_TO_RETAIN)
          ((e :: t0) ++ [p]) = t0 ++ [p]
        rw [hfuel]
        show (match oldestEntry (e :: (t0 ++ [p])) with
          | none => (e :: t0) ++ [p]
          | some m => evictLoop 0 (removeKey m.1 ((e :: t0) ++ [p]))) = t0 ++ [p]
        rw [oldestEntry_sorted (t0 ++ [p]) e hsorted]
        show evictLoop 0 (removeKey e.1 (e :: (t0 ++ [p]))) = t0 ++ [p]
        unfold removeKey
        rw [if_pos rfl]
        rfl
      have hsubTail : List.Sublist (t0 ++ p :: rest) ((e :: t0) ++ p :: rest) := by
        show List.Sublist (t0 ++ p :: rest) (e :: (t0 ++ p :: rest))
        exact List.Sublist.cons e (List.Sublist.refl (t0 ++ p :: rest))
      have happ2 : (t0 ++ [p]) ++ rest = t0 ++ p :: rest := by simp
      have ih' := ih (t0 ++ [p])
        (by rw [happ2]; exact hnd.sublist (hsubTail.map Prod.fst))
        (by rw [happ2]; exact hpw.sublist (hsubTail.map Prod.snd))
        (by simp only [List.length_append, List.length_cons, List.length_nil]; omega)
      rw [hsp, ih', happ2]
      have hlt0 : t0.length = 9 := by omega
      have h1 : (t0 ++ p :: rest).length - 10 = rest.length := by
        simp only [List.length_append, List.length_cons]
        omega
      have h2 : ((e :: t0) ++ p :: rest).length - 10 = rest.length + 1 := by
        simp only [List.length_append, List.length_cons]
        omega
      rw [h1, h2]
      show (t0 ++ p :: rest).drop rest.length =
        (e :: (t0 ++ p :: rest)).drop (rest.length + 1)
      rw [List.drop_succ_cons]

/-- C5 (confirmed). For any sequence of more than 10 insertions of
distinct tokens with strictly increasing send times (and no reply-driven
removals), every insertion-plus-eviction step of the send phase leaves the
table with at most `IN_FLIGHT_TO_RETAIN` (10) entries, and the table left
after the whole sequence consists of exactly the 10 most recently
inserted entries, in insertion order — each eviction having removed the
single entry with the least send time, i.e. the longest elapsed time. -/
theorem C5_in_flight_bound (ps : List (Nat × Nat))
    (hnd : (ps.map Prod.fst).Nodup)
    (hinc : (ps.map Prod.snd).Chain' (· < ·))
    (hlen : 10 < ps.length) :
    (∀ pre, pre <+: ps → (runSends [] pre).length ≤ IN_FLIGHT_TO_RETAIN) ∧
    runSends [] ps = ps.drop (ps.length - IN_FLIGHT_TO_RETAIN) ∧
    (runSends [] ps).length = IN_FLIGHT_TO_RETAIN := by
  have hpw : (ps.map Prod.snd).Pairwise (· < ·) := List.chain'_iff_pairwise.mp hinc
  have main : runSends [] ps = ps.drop (ps.length - 10) := by
    have h := runSends_suffix ps [] (by simpa using hnd) (by simpa using hpw)
      (by simp)
    simpa using h
  refine ⟨?_, ?_, ?_⟩
  · intro pre hpre
    have hnd' : (pre.map Prod.fst).Nodup := hnd.sublist (hpre.sublist.map Prod.fst)
    have hpw' : (pre.map Prod.snd).Pairwise (· < ·) :=
      hpw.sublist (hpre.sublist.map Prod.snd)
    have h := runSends_suffix pre [] (by simpa using hnd') (by simpa using hpw')
      (by simp)
    simp only [List.nil_append] at h
    rw [h]
    simp only [List.length_drop, IN_FLIGHT_TO_RETAIN]
    omega
  · simpa only [IN_FLIGHT_TO_RETAIN] using main
  · rw [main]
    simp only [List.length_drop, IN_FLIGHT_TO_RETAIN]
    omega

/-- C5 witness: twelve insertions with tokens and send times 0..11. -/
theorem C5_witness :
    (∀ pre, pre <+: (List.range 12).map (fun i => (i, i)) →
      (runSends [] pre).length ≤ IN_FLIGHT_TO_RETAIN) ∧
    runSends [] ((List.range 12).map (fun i => (i, i))) =
      ((List.range 12).map (fun i => (i, i))).drop
        (((List.range 12).map (fun i => (i, i))).length - IN_FLIGHT_TO_RETAIN) ∧
    (runSends [] ((List.range 12).map (fun i => (i, i)))).length =
      IN_FLIGHT_TO_RETAIN :=
  C5_in_flight_bound _ (by decide) (List.chain'_iff_pairwise.mpr (by decide))
    (by decide)

/-- C8 witness: the classification applied to a concrete refused connect
with `allow_rst` off. -/
theorem C8_witness :
    tcpAttemptStep false (ResolveOutcome.ok ("1.2.3.4:80".data))
      ConnectOutcome.connectionRefused 5 =
      (some (.Timeout ("1.2.3.4:80".data)), true) := by
  have h := C8_tcp_classification false ("1.2.3.4:80".data) ("".data)
    ConnectOutcome.connectionRefused 5
  simpa using h.2.2.2.2.1
